import Mathlib

/-!
Verification of the VLSM calculator core (`src/js/script.js`).

The JavaScript source works on 32-bit address values through JS number
semantics: bitwise operators coerce their operands to 32-bit integers
(shift counts are taken modulo 32) and plain `+`/`-` are exact on the
integer magnitudes that occur here.  The embedding models every address
quantity as a natural number with explicit `% 2^32` where the source
performs a uint32 coercion (`>>> 0`, octet extraction); signed int32
intermediates (from `<<`, `&`, `|`, `~`) are congruent mod `2^32` to the
modelled values, and every consumer in the source reads them through a
coercion, so the uint32 view is faithful.
-/

deriving instance DecidableEq for Except

namespace VLSM

/-- Model of the JS unsigned right shift `x >>> n` applied to a 32-bit
value: the operand is coerced to uint32 and the shift count is reduced
modulo 32. -/
def jsShrU (x n : ℕ) : ℕ := (x % 2^32) >>> (n % 32)

/-- Model of the JS pattern `~x >>> 0` used in `script.js`: bitwise
complement of a 32-bit value, read back as uint32. -/
def jsNot32 (x : ℕ) : ℕ := 2^32 - 1 - x % 2^32

/-- Model of the mask expression `~(0xffffffff >>> prefixLength) >>> 0`
from `script.js` lines 24, 36 and 194. -/
def jsMask (prefixLength : ℕ) : ℕ := jsNot32 (jsShrU 0xffffffff prefixLength)

/-- Model of `intToIp` (`script.js` 102-109) and of the identical inline
octet extractions at lines 27-32, 39-44, 66-71, 75-80 and 195-200:
`(int >>> sh) & 255` for the four byte positions.  The `>>>` coerces to
uint32 first, hence the `% 2^32`. -/
def intToIp (int : ℕ) : List ℕ :=
  [(int % 2^32) >>> 24 &&& 255,
   (int % 2^32) >>> 16 &&& 255,
   (int % 2^32) >>> 8 &&& 255,
   (int % 2^32) &&& 255]

/-- Model of `ipToInt` (`script.js` 98-100) and of the identical inline
packings at lines 25, 37, 51 and 52: `(ip[0] << 24) + (ip[1] << 16) +
(ip[2] << 8) + ip[3]`.  For octets in `[0,255]` the value is below
`2^32`; the JS int32 result is congruent to it mod `2^32`, which is how
every use site reads it. -/
def ipToInt (ip : List ℕ) : ℕ :=
  match ip with
  | [a, b, c, d] => (a <<< 24) + (b <<< 16) + (c <<< 8) + d
  | _ => 0

/-- Model of `calculateNetworkAddress` (`script.js` 23-33):
`ipInt & mask`, rendered back to octets. -/
def calculateNetworkAddress (ip : List ℕ) (prefixLength : ℕ) : List ℕ :=
  intToIp (ipToInt ip &&& jsMask prefixLength)

/-- Model of `calculateBroadcastAddress` (`script.js` 35-45):
`ipInt | ~mask`, rendered back to octets. -/
def calculateBroadcastAddress (ip : List ℕ) (prefixLength : ℕ) : List ℕ :=
  intToIp (ipToInt ip ||| jsNot32 (jsMask prefixLength))

/-- Model of `usableRange` (`script.js` 47-83).  `none` stands for the JS
`null`.  For `prefixLength ≤ 30` the source computes `broadcastInt - 1`
with exact JS arithmetic; the complement then has its low two bits set,
so `broadcastInt ≥ 3` and the truncated `ℕ` subtraction agrees. -/
def usableRange (ip : List ℕ) (prefixLength : ℕ) : Option (List ℕ) × Option (List ℕ) :=
  let network := calculateNetworkAddress ip prefixLength
  let broadcast := calculateBroadcastAddress ip prefixLength
  let networkInt := ipToInt network
  let broadcastInt := ipToInt broadcast
  if prefixLength ≥ 31 then
    if prefixLength = 31 then (some network, some broadcast) else (none, none)
  else
    (some (intToIp (networkInt + 1)), some (intToIp (broadcastInt - 1)))

/-- Model of the `while` loop of `getRequiredPrefixLength` (`script.js`
89-94): count `prefixLength` down, stopping at the first value whose
subnet size `2^(32 - prefixLength)` reaches `totalAddresses`; the loop
guard `prefixLength > 0` exits at 0 without testing `2^32`. -/
def prefixLoop : ℕ → ℕ → ℕ
  | 0, _ => 0
  | p + 1, totalAddresses =>
    if 2^(32 - (p + 1)) ≥ totalAddresses then p + 1 else prefixLoop p totalAddresses

/-- Model of `getRequiredPrefixLength` (`script.js` 85-96): adds 2 to the
host count for the network and broadcast addresses and searches the
prefix length downward from 32. -/
def getRequiredPrefixLength (hosts : ℕ) : ℕ := prefixLoop 32 (hosts + 2)

/-- Model of `prefixLengthToSubnetMask` (`script.js` 193-201) up to the
final dotted-quad string join: the mask value rendered as four octets. -/
def prefixLengthToSubnetMask (prefixLength : ℕ) : List ℕ :=
  intToIp (jsMask prefixLength)

/-- One entry of the `subnets` working list built at `script.js`
135-139. -/
structure Subnet where
  hosts : ℕ
  prefixLength : ℕ
  subnetSize : ℕ
deriving DecidableEq

/-- One entry of `subnetDetails` (`script.js` 159-165).  The `name`
string `Subnet ${index + 1} (${hosts} hosts)` is modelled by the `idx`
(the 1-based position in the emitted list) and `hosts` fields; `network`
plus `prefixLength` model the `a.b.c.d/p` string; `firstHost`/`lastHost`
model `hostRange` with `none` for the missing-host case. -/
structure SubnetDetail where
  idx : ℕ
  hosts : ℕ
  network : List ℕ
  prefixLength : ℕ
  broadcast : List ℕ
  firstHost : Option (List ℕ)
  lastHost : Option (List ℕ)
  subnetMask : List ℕ
deriving DecidableEq

/-- The object literal `{ hosts, prefixLength: getRequiredPrefixLength(hosts),
subnetSize: Math.pow(2, 32 - getRequiredPrefixLength(hosts)) }` built for
each requirement at `script.js` 135-139. -/
def mkSubnet (hosts : ℕ) : Subnet :=
  { hosts := hosts
    prefixLength := getRequiredPrefixLength hosts
    subnetSize := 2^(32 - getRequiredPrefixLength hosts) }

/-- Insert a subnet after every element whose `subnetSize` is at least
as large.  Folding this over the list yields the unique stable
descending order produced by
`subnets.sort((a, b) => b.subnetSize - a.subnetSize)` (`script.js` 142):
JS `Array.prototype.sort` is stable, so elements of equal size keep
their input order, which is exactly what inserting behind equal sizes
does. -/
def insertBySize (s : Subnet) : List Subnet → List Subnet
  | [] => [s]
  | t :: ts => if s.subnetSize ≤ t.subnetSize then t :: insertBySize s ts else s :: t :: ts

/-- Model of `subnets.sort((a, b) => b.subnetSize - a.subnetSize)`
(`script.js` 142): stable sort by descending `subnetSize`. -/
def sortBySizeDesc (l : List Subnet) : List Subnet :=
  l.foldl (fun acc s => insertBySize s acc) []

/-- Model of the allocation walk (`script.js` 152-170): `subnets.map`
over the sorted list, with the mutable cursor `currentIp` and the map
index made explicit arguments.  The cursor advances by `subnetSize`
exactly as `currentIp += subnet.subnetSize` does (exact JS arithmetic;
consumers reduce mod `2^32`). -/
def allocGo (currentIp index : ℕ) : List Subnet → List SubnetDetail
  | [] => []
  | subnet :: rest =>
    let network := intToIp currentIp
    let pl := subnet.prefixLength
    let broadcast := calculateBroadcastAddress network pl
    let range := usableRange network pl
    { idx := index + 1
      hosts := subnet.hosts
      network := network
      prefixLength := pl
      broadcast := broadcast
      firstHost := range.1
      lastHost := range.2
      subnetMask := prefixLengthToSubnetMask pl } :: allocGo (currentIp + subnet.subnetSize) (index + 1) rest

/-- The single failure the allocator core can raise
(`throw new Error('Not enough addresses available ...')`,
`script.js` 148). -/
inductive VLSMError where
  | insufficientAddressSpace
deriving DecidableEq

/-- Model of the allocator core of `calculateVLSM` (`script.js`
135-170): the computation performed after the base network and the host
requirement list have been read, up to the list of rendered subnet
details.  A thrown error is modelled as `Except.error`; the throw at
line 148 aborts the whole `map`, so no partial list is ever produced. -/
def allocate (ip : List ℕ) (prefixLength : ℕ) (hostRequirements : List ℕ) :
    Except VLSMError (List SubnetDetail) :=
  let subnets := hostRequirements.map mkSubnet
  let sorted := sortBySizeDesc subnets
  let totalAddressesNeeded := (sorted.map Subnet.subnetSize).sum
  let availableAddresses := 2^(32 - prefixLength)
  if totalAddressesNeeded > availableAddresses then
    .error .insufficientAddressSpace
  else
    .ok (allocGo (ipToInt ip) 0 sorted)

/-- Characters the JS string-to-number conversions skip as whitespace:
ECMA-262 WhiteSpace (TAB, VT, FF, SP, NBSP, ZWNBSP and the Unicode
space-separator category Zs) together with LineTerminator (LF, CR, LS,
PS). -/
def isJsWhitespace (ch : Char) : Bool :=
  ch = ' ' || ch = '\t' || ch = '\n' || ch = '\r' || ch = '\x0b' || ch = '\x0c' ||
  ch = '\u00A0' || ch = '\u1680' ||
  ('\u2000' ≤ ch && ch ≤ '\u200A') ||
  ch = '\u2028' || ch = '\u2029' || ch = '\u202F' || ch = '\u205F' ||
  ch = '\u3000' || ch = '\uFEFF'

/-- Decimal digit test. -/
def isDigitChar (ch : Char) : Bool := '0' ≤ ch && ch ≤ '9'

/-- Value of a decimal digit. -/
def digitVal (ch : Char) : ℕ := ch.toNat - '0'.toNat

/-- Hexadecimal digit test. -/
def isHexDigitChar (ch : Char) : Bool :=
  isDigitChar ch || ('a' ≤ ch && ch ≤ 'f') || ('A' ≤ ch && ch ≤ 'F')

/-- Value of a hexadecimal digit. -/
def hexVal (ch : Char) : ℕ :=
  if isDigitChar ch then digitVal ch
  else if 'a' ≤ ch && ch ≤ 'f' then ch.toNat - 'a'.toNat + 10
  else ch.toNat - 'A'.toNat + 10

/-- Octal digit test. -/
def isOctDigitChar (ch : Char) : Bool := '0' ≤ ch && ch ≤ '7'

/-- Binary digit test. -/
def isBinDigitChar (ch : Char) : Bool := ch = '0' || ch = '1'

/-- Reads a digit string in the given base, most significant first. -/
def digitsToNat (base : ℕ) (val : Char → ℕ) (cs : List Char) : ℕ :=
  cs.foldl (fun acc ch => base * acc + val ch) 0

/-- Splitting a character list on a separator, with the semantics of the
JS `String.prototype.split` for a one-character separator: separators at
either end or adjacent separators produce empty components, and the
result always has at least one component. -/
def splitOnChar (sep : Char) : List Char → List (List Char)
  | [] => [[]]
  | c :: cs =>
    match splitOnChar sep cs with
    | [] => [[c]]
    | p :: ps => if c = sep then [] :: p :: ps else (c :: p) :: ps

/-- Model of the JS `parseInt(s)` call with no radix argument
(`script.js` 10): skip leading whitespace (the full ECMA-262 set), read
an optional sign, switch to base 16 after a `0x`/`0X`, then read the
longest run of digits of the base, ignoring everything after it; no
digits means NaN, modelled as `none`.  The model returns the exact
integer where JS rounds results above `2^53` to doubles; the two agree
on every observation `parseCIDR` makes, because rounding never moves a
value across the `[0,32]` range test at line 11 (doubles are exact up
to `2^53`, and a value above `2^53` rounds to a value above `2^53`),
and an accepted value lies in `[0,32]`, where conversion is exact. -/
def jsParseInt (s : List Char) : Option ℤ :=
  let t := s.dropWhile isJsWhitespace
  let signed : ℤ × List Char :=
    match t with
    | '-' :: rest => (-1, rest)
    | '+' :: rest => (1, rest)
    | _ => (1, t)
  let based : Bool × List Char :=
    match signed.2 with
    | '0' :: 'x' :: rest => (true, rest)
    | '0' :: 'X' :: rest => (true, rest)
    | _ => (false, signed.2)
  let digits := based.2.takeWhile (if based.1 then isHexDigitChar else isDigitChar)
  if digits.isEmpty then none
  else some (signed.1 *
    (digitsToNat (if based.1 then 16 else 10) (if based.1 then hexVal else digitVal) digits : ℤ))

/-- Result of the JS `Number(string)` conversion.  A finite value is
the IEEE-754 binary64 double obtained by rounding the literal's exact
decimal value, carried exactly as `significand * 2 ^ exp2` (not
normalized).  JS distinguishes `-0` from `+0`, but the two compare
identically against 0 and 255 — the only way `parseCIDR` observes a
value — so both are represented with significand 0. -/
inductive JsNum where
  | nan
  | inf
  | negInf
  | val (significand : ℤ) (exp2 : ℤ)
deriving DecidableEq

namespace JsNum

/-- Negation, for a leading minus sign (binary64 rounding commutes with
negation, so negating the rounded magnitude is exact). -/
def neg : JsNum → JsNum
  | nan => nan
  | inf => negInf
  | negInf => inf
  | val m e => val (-m) e

/-- Model of the JS `isNaN` test at `script.js` 16. -/
def isNaN : JsNum → Bool
  | nan => true
  | _ => false

/-- Model of the JS comparison `o < 0` at `script.js` 16 (false on NaN,
and false on `-0`, whose significand is 0). -/
def lt0 : JsNum → Bool
  | nan => false
  | inf => false
  | negInf => true
  | val m _ => m < 0

/-- Model of the JS comparison `o > 255` at `script.js` 16 (false on
NaN).  Exact, since the compared value is the rounded double. -/
def gt255 : JsNum → Bool
  | nan => false
  | inf => true
  | negInf => false
  | val m e => if 0 ≤ e then 255 < m * 2 ^ e.toNat else 255 * 2 ^ (-e).toNat < m

end JsNum

/-- Decimal digit count of `n` (fuel-based structural recursion; the
fuel `n` itself always suffices). -/
def numDigitsAux : ℕ → ℕ → ℕ
  | 0, _ => 1
  | fuel + 1, n => if n < 10 then 1 else numDigitsAux fuel (n / 10) + 1

/-- Decimal digit count: for `n ≥ 1` the unique `d` with
`10^(d-1) ≤ n < 10^d`. -/
def numDigits (n : ℕ) : ℕ := numDigitsAux n n

/-- Bit-length helper (fuel-based structural recursion). -/
def bitlenAux : ℕ → ℕ → ℕ
  | 0, _ => 0
  | fuel + 1, n => if n = 0 then 0 else bitlenAux fuel (n / 2) + 1

/-- Bit length: for `n ≥ 1` the unique `l` with `2^(l-1) ≤ n < 2^l`. -/
def bitlen (n : ℕ) : ℕ := bitlenAux n n

/-- Whether `2^d ≤ a / b`, for positive naturals `a`, `b` and an
integer exponent `d`. -/
def twoPowRatLe (d : ℤ) (a b : ℕ) : Bool :=
  if 0 ≤ d then decide (2 ^ d.toNat * b ≤ a) else decide (b ≤ a * 2 ^ (-d).toNat)

/-- Floor of the base-2 logarithm of the positive rational `a / b`.
Since `2^(L-1) ≤ a/b < 2^(L+1)` for `L = bitlen a - bitlen b`, a single
comparison decides between `L` and `L - 1`. -/
def ilog2Rat (a b : ℕ) : ℤ :=
  let d : ℤ := (bitlen a : ℤ) - (bitlen b : ℤ)
  if twoPowRatLe d a b then d else d - 1

/-- Rounds the positive rational `a / b` to the IEEE-754 binary64 grid
with round-half-to-even: returns `(n, q)` with value `n * 2^q`, where
`q = max(⌊log₂(a/b)⌋ - 52, -1074)` is the quantum exponent (`-1074`
covers the subnormal range; a value below half the smallest subnormal
rounds to `n = 0`).  A result with `n * 2^q ≥ 2^1024` means overflow to
Infinity and is checked by the caller. -/
def roundPosRat (a b : ℕ) : ℕ × ℤ :=
  let q : ℤ := max (ilog2Rat a b - 52) (-1074)
  let N := if 0 ≤ q then a else a * 2 ^ (-q).toNat
  let D := if 0 ≤ q then b * 2 ^ q.toNat else b
  let n0 := N / D
  let r := N % D
  let n := if D < 2 * r then n0 + 1 else if 2 * r < D then n0 else n0 + n0 % 2
  (n, q)

/-- Whether `n * 2^q ≥ 2^1024`, the binary64 overflow threshold.  For
`n ≥ 1` one has `2^(L-1) ≤ n < 2^L` with `L = bitlen n`, so
`n * 2^q ≥ 2^1024` holds exactly when `L + q ≥ 1025`: if `L + q ≥ 1025`
then `n * 2^q ≥ 2^(L-1+q) ≥ 2^1024`, and if `L + q ≤ 1024` then
`n * 2^q < 2^(L+q) ≤ 2^1024`. -/
def overflows (n : ℕ) (q : ℤ) : Bool :=
  decide (1025 ≤ (bitlen n : ℤ) + q)

/-- Rounds the exact mathematical value `m * 10^e10` of a JS numeric
literal to its JS Number value: the nearest binary64 double with ties
to even, Infinity on overflow (a rounded magnitude reaching `2^1024`),
and zero on underflow.  Exponents far outside the double range are
settled first by decimal-length bounds (`|v| ≥ 10^(e10+len-1) ≥ 10^309`
forces Infinity since `2^1024 < 10^309`; `|v| < 10^(e10+len) ≤ 10^-324
< 2^-1075` forces a signed zero), so `10^|e10|` is only computed for
exponents near the double range.  For literals of more than 20
significant digits ECMA-262 permits either exact rounding or rounding
of a 20-digit truncation; this models exact rounding, which is what the
major engines implement. -/
def roundToDouble (m : ℤ) (e10 : ℤ) : JsNum :=
  if m = 0 then .val 0 0
  else
    let a0 := m.natAbs
    let len : ℤ := (numDigits a0 : ℤ)
    if 309 ≤ e10 + len - 1 then (if m < 0 then .negInf else .inf)
    else if e10 + len ≤ -324 then .val 0 0
    else
      let a := if 0 ≤ e10 then a0 * 10 ^ e10.toNat else a0
      let b := if 0 ≤ e10 then 1 else 10 ^ (-e10).toNat
      let nq := roundPosRat a b
      if overflows nq.1 nq.2 then (if m < 0 then .negInf else .inf)
      else .val (if m < 0 then -(nq.1 : ℤ) else (nq.1 : ℤ)) nq.2

/-- Parses the exponent tail of a decimal literal (after `e`/`E`):
an optional sign and a nonempty digit run that must use up the whole
remaining input. -/
def parseExponent (cs : List Char) : Option ℤ :=
  let signed : ℤ × List Char :=
    match cs with
    | '-' :: rest => (-1, rest)
    | '+' :: rest => (1, rest)
    | _ => (1, cs)
  let ds := signed.2.takeWhile isDigitChar
  if ds.isEmpty || !(signed.2.dropWhile isDigitChar).isEmpty then none
  else some (signed.1 * (digitsToNat 10 digitVal ds : ℤ))

/-- Parses an unsigned JS decimal literal: `digits [. digits] [exp]` or
`. digits [exp]`, where the whole input must be consumed. -/
def parseDecimalLiteral (cs : List Char) : Option (ℤ × ℤ) :=
  let intPart := cs.takeWhile isDigitChar
  let rest1 := cs.dropWhile isDigitChar
  let fracSplit : List Char × List Char :=
    match rest1 with
    | '.' :: r => (r.takeWhile isDigitChar, r.dropWhile isDigitChar)
    | _ => ([], rest1)
  if intPart.isEmpty && fracSplit.1.isEmpty then none
  else
    let mantissa : ℤ := (digitsToNat 10 digitVal (intPart ++ fracSplit.1) : ℕ)
    match fracSplit.2 with
    | [] => some (mantissa, -(fracSplit.1.length : ℤ))
    | 'e' :: r =>
      match parseExponent r with
      | some ex => some (mantissa, ex - (fracSplit.1.length : ℤ))
      | none => none
    | 'E' :: r =>
      match parseExponent r with
      | some ex => some (mantissa, ex - (fracSplit.1.length : ℤ))
      | none => none
    | _ => none

/-- The character list of the literal `Infinity`. -/
def infinityChars : List Char := ['I', 'n', 'f', 'i', 'n', 'i', 't', 'y']

/-- Parses an unsigned number body — `Infinity` or a decimal literal —
and rounds its exact value to the JS Number value. -/
def jsNumUnsigned (cs : List Char) : JsNum :=
  if cs = infinityChars then .inf
  else
    match parseDecimalLiteral cs with
    | some me => roundToDouble me.1 me.2
    | none => .nan

/-- Parses a whole-input digit run in the given base, as used for the
`0x`/`0o`/`0b` literal forms, and rounds it to the JS Number value. -/
def radixLiteral (base : ℕ) (pred : Char → Bool) (val : Char → ℕ) (cs : List Char) : JsNum :=
  if !cs.isEmpty && cs.all pred then roundToDouble (digitsToNat base val cs : ℕ) 0 else .nan

/-- Model of the JS `Number(string)` conversion applied by `.map(Number)`
at `script.js` 15: trim whitespace (the full ECMA-262 set); the empty
string is 0; an optional sign followed by `Infinity` or a decimal
literal; or an unsigned `0x`/`0o`/`0b` integer literal.  The literal's
exact value is rounded to its binary64 Number value by
`roundToDouble`. -/
def jsNumber (s : List Char) : JsNum :=
  let t := ((s.dropWhile isJsWhitespace).reverse.dropWhile isJsWhitespace).reverse
  if t.isEmpty then .val 0 0
  else
    match t with
    | '+' :: r => jsNumUnsigned r
    | '-' :: r => (jsNumUnsigned r).neg
    | '0' :: 'x' :: r => radixLiteral 16 isHexDigitChar hexVal r
    | '0' :: 'X' :: r => radixLiteral 16 isHexDigitChar hexVal r
    | '0' :: 'o' :: r => radixLiteral 8 isOctDigitChar digitVal r
    | '0' :: 'O' :: r => radixLiteral 8 isOctDigitChar digitVal r
    | '0' :: 'b' :: r => radixLiteral 2 isBinDigitChar digitVal r
    | '0' :: 'B' :: r => radixLiteral 2 isBinDigitChar digitVal r
    | _ => jsNumUnsigned t

/-- The three failure modes of `parseCIDR`, in the order the source
tests them: `Invalid CIDR format`, `Invalid prefix length`, `Invalid IP
address` (`script.js` 8, 12, 17). -/
inductive CIDRError where
  | malformedInput
  | invalidPrefixLength
  | invalidAddress
deriving DecidableEq

/-- Model of `parseCIDR` (`script.js` 6-21).  The destructuring
`const [ip, prefix] = subnet.split('/')` keeps the first two components
and drops any further ones; a missing second component is `undefined`,
which the `!prefix` test treats like the empty string.  The returned
octets are the JS `Number` values of the four components. -/
def parseCIDR (subnet : String) : Except CIDRError (List JsNum × ℤ) :=
  match splitOnChar '/' subnet.data with
  | [] => .error .malformedInput
  | ipPart :: restParts =>
    let prefixPart := (restParts.head?).getD []
    if ipPart.isEmpty || prefixPart.isEmpty then .error .malformedInput
    else
      match jsParseInt prefixPart with
      | none => .error .invalidPrefixLength
      | some prefixLength =>
        if prefixLength < 0 || 32 < prefixLength then .error .invalidPrefixLength
        else
          let octets := (splitOnChar '.' ipPart).map jsNumber
          if octets.length ≠ 4 || octets.any (fun o => o.isNaN || o.lt0 || o.gt255) then
            .error .invalidAddress
          else
            .ok (octets, prefixLength)

/-- Modelled from the spec: the C8 reading of a string that "parses as
an integer" — an optional sign followed by one or more decimal digits
making up the whole string, denoting that integer.  This is the
spec-side definition compared against the source's `parseInt`/`Number`
conversions. -/
def strictInt (cs : List Char) : Option ℤ :=
  let signed : ℤ × List Char :=
    match cs with
    | '-' :: rest => (-1, rest)
    | '+' :: rest => (1, rest)
    | _ => (1, cs)
  if !signed.2.isEmpty && signed.2.all isDigitChar then
    some (signed.1 * (digitsToNat 10 digitVal signed.2 : ℤ))
  else none

/-- The first component of the split CIDR string (the address part). -/
def ipPartOf (s : String) : List Char :=
  match splitOnChar '/' s.data with
  | ipPart :: _ => ipPart
  | [] => []

/-- The second component of the split CIDR string (the prefix part),
empty when missing. -/
def prefixPartOf (s : String) : List Char :=
  match splitOnChar '/' s.data with
  | _ :: p :: _ => p
  | _ => []

/-- Stage-1 success condition of `parseCIDR`: both of the first two
split components are present and nonempty. -/
def bothPartsPresent (s : String) : Bool :=
  match splitOnChar '/' s.data with
  | ipPart :: restParts =>
    !ipPart.isEmpty && !((restParts.head?).getD []).isEmpty
  | [] => false

/-- Stage-2 success condition of `parseCIDR`: the prefix part converts
through `parseInt` to an integer in `[0,32]`. -/
def jsPrefixOk (s : String) : Bool :=
  match jsParseInt (prefixPartOf s) with
  | some n => !(n < 0 || 32 < n)
  | none => false

/-- Stage-3 success condition of `parseCIDR`: the address part splits on
`.` into exactly four components whose `Number` values (the
binary64-rounded doubles) are neither NaN nor outside `[0,255]`. -/
def jsAddressOk (s : String) : Bool :=
  let octets := (splitOnChar '.' (ipPartOf s)).map jsNumber
  octets.length = 4 && !octets.any (fun o => o.isNaN || o.lt0 || o.gt255)

/-- Membership of an address in the closed range from a detail's network
address to its broadcast address (both read as packed 32-bit values). -/
def inRange (d : SubnetDetail) (x : ℕ) : Prop :=
  ipToInt d.network ≤ x ∧ x ≤ ipToInt d.broadcast

/-- Concrete detail value used in witnesses: the 50-host subnet
`192.168.1.0/26` that the allocator emits first for base
`192.168.1.0/24`. -/
def detail50 : SubnetDetail :=
  { idx := 1, hosts := 50, network := [192,168,1,0], prefixLength := 26,
    broadcast := [192,168,1,63], firstHost := some [192,168,1,1],
    lastHost := some [192,168,1,62], subnetMask := [255,255,255,192] }

/-- Concrete detail value used in witnesses: the 20-host subnet
`192.168.1.64/27` emitted second for requirements `[50, 20]`. -/
def detail20 : SubnetDetail :=
  { idx := 2, hosts := 20, network := [192,168,1,64], prefixLength := 27,
    broadcast := [192,168,1,95], firstHost := some [192,168,1,65],
    lastHost := some [192,168,1,94], subnetMask := [255,255,255,224] }

/-- Concrete detail value used in witnesses: the 10-host subnet
`192.168.1.64/28` emitted second for requirements `[10, 50]`. -/
def detail10 : SubnetDetail :=
  { idx := 2, hosts := 10, network := [192,168,1,64], prefixLength := 28,
    broadcast := [192,168,1,79], firstHost := some [192,168,1,65],
    lastHost := some [192,168,1,78], subnetMask := [255,255,255,240] }

/-- Concrete detail value used in witnesses: the 10-host subnet
`192.168.1.96/28` emitted third for requirements `[50, 20, 10]`. -/
def detail10third : SubnetDetail :=
  { idx := 3, hosts := 10, network := [192,168,1,96], prefixLength := 28,
    broadcast := [192,168,1,111], firstHost := some [192,168,1,97],
    lastHost := some [192,168,1,110], subnetMask := [255,255,255,240] }

instance (d : SubnetDetail) (x : ℕ) : Decidable (inRange d x) := by
  unfold inRange; infer_instance

/-! ## Bit-level arithmetic facts about the embedded operations -/

theorem lor_low_bits (x k : ℕ) : x ||| (2^k - 1) = 2^k * (x / 2^k) + (2^k - 1) := by
  apply Nat.eq_of_testBit_eq
  intro j
  rw [Nat.testBit_or, Nat.testBit_mul_pow_two_add _ (Nat.sub_lt (Nat.two_pow_pos k) one_pos)]
  by_cases hj : j < k
  · simp [hj]
  · simp only [hj, if_false, Nat.testBit_two_pow_sub_one]
    have hd : x / 2^k = x >>> k := (Nat.shiftRight_eq_div_pow x k).symm
    rw [hd, Nat.testBit_shiftRight, show k + (j - k) = j by omega]
    simp [hj]

theorem land_high_mask {x : ℕ} (hx : x < 2^32) (k : ℕ) (hk : k ≤ 32) :
    x &&& (2^32 - 2^k) = 2^k * (x / 2^k) := by
  have h1 : (2:ℕ)^k * 2^(32-k) = 2^32 := by rw [← pow_add]; congr 1; omega
  have hs : (2:ℕ)^32 - 2^k = 2^k * (2^(32-k) - 1) := by
    rw [Nat.mul_sub, h1, Nat.mul_one]
  apply Nat.eq_of_testBit_eq
  intro j
  rw [Nat.testBit_and, hs, Nat.testBit_mul_pow_two, Nat.testBit_mul_pow_two,
      Nat.testBit_two_pow_sub_one]
  by_cases hj : k ≤ j
  · have hd : x / 2^k = x >>> k := (Nat.shiftRight_eq_div_pow x k).symm
    rw [hd, Nat.testBit_shiftRight, show k + (j - k) = j by omega]
    by_cases hj32 : j < 32
    · simp [hj, show j - k < 32 - k by omega, Bool.and_comm]
    · have h2 : x.testBit j = false :=
        Nat.testBit_lt_two_pow (lt_of_lt_of_le hx (Nat.pow_le_pow_right (by norm_num) (by omega)))
      simp [h2]
  · simp [show ¬(j ≥ k) by omega]

theorem jsShrU_allones {p : ℕ} (hp : p ≤ 31) : jsShrU 0xffffffff p = 2^(32 - p) - 1 := by
  have hmod : p % 32 = p := Nat.mod_eq_of_lt (by omega)
  rw [jsShrU, hmod, Nat.shiftRight_eq_div_pow]
  have h1 : (2:ℕ)^p * 2^(32-p) = 2^32 := by rw [← pow_add]; congr 1; omega
  have h2 : (0xffffffff : ℕ) % 2^32 = 2^p * (2^(32-p) - 1) + (2^p - 1) := by
    have h3 : (2:ℕ)^p * (2^(32-p) - 1) = 2^32 - 2^p := by
      rw [Nat.mul_sub, h1, Nat.mul_one]
    have h4 : (0:ℕ) < 2^p := Nat.two_pow_pos p
    have h5 : (2:ℕ)^p ≤ 2^32 := Nat.pow_le_pow_right (by norm_num) (by omega)
    rw [h3]
    norm_num
    omega
  rw [h2, Nat.mul_add_div (Nat.two_pow_pos p), Nat.div_eq_of_lt (Nat.sub_lt (Nat.two_pow_pos p) one_pos)]
  omega

theorem jsMask_eq {p : ℕ} (hp : p ≤ 31) : jsMask p = 2^32 - 2^(32 - p) := by
  rw [jsMask, jsShrU_allones hp, jsNot32]
  have h1 : (2:ℕ)^(32-p) - 1 < 2^32 :=
    lt_of_lt_of_le (Nat.sub_lt (Nat.two_pow_pos _) one_pos)
      (Nat.pow_le_pow_right (by norm_num) (by omega))
  have h2 : (0:ℕ) < 2^(32-p) := Nat.two_pow_pos _
  rw [Nat.mod_eq_of_lt h1]
  omega

theorem jsNot32_jsMask {p : ℕ} (hp : p ≤ 31) : jsNot32 (jsMask p) = 2^(32 - p) - 1 := by
  rw [jsMask_eq hp, jsNot32]
  have h2 : (0:ℕ) < 2^(32-p) := Nat.two_pow_pos _
  have h5 : (2:ℕ)^(32-p) ≤ 2^32 := Nat.pow_le_pow_right (by norm_num) (by omega)
  rw [Nat.mod_eq_of_lt (by omega)]
  omega

theorem jsMask_lt (p : ℕ) : jsMask p < 2^32 := by
  rw [jsMask, jsNot32]
  have := Nat.mod_lt (jsShrU 0xffffffff p) (show (2:ℕ)^32 > 0 by norm_num)
  omega

theorem intToIp_eq (n : ℕ) :
    intToIp n = [n % 2^32 / 2^24 % 256, n % 2^32 / 2^16 % 256,
                 n % 2^32 / 2^8 % 256, n % 2^32 % 256] := by
  have h255 : ∀ x : ℕ, x &&& 255 = x % 256 := by
    intro x
    have h := Nat.and_pow_two_sub_one_eq_mod x 8
    norm_num at h
    exact h
  rw [intToIp]
  simp only [Nat.shiftRight_eq_div_pow, h255]

theorem ipToInt_intToIp (n : ℕ) : ipToInt (intToIp n) = n % 2^32 := by
  rw [intToIp_eq, ipToInt]
  simp only [Nat.shiftLeft_eq]
  have hu : n % 2^32 < 2^32 := Nat.mod_lt _ (by norm_num)
  set u := n % 2^32 with hudef
  have f1 : u / 2^24 % 256 = u / 2^24 := by
    apply Nat.mod_eq_of_lt
    rw [Nat.div_lt_iff_lt_mul (by norm_num)]
    omega
  have f2 : u / 2^16 % 256 = u % 2^24 / 2^16 := by
    have h := Nat.mod_mul_right_div_self u (2^16) 256
    norm_num at h ⊢
    omega
  have f3 : u / 2^8 % 256 = u % 2^16 / 2^8 := by
    have h := Nat.mod_mul_right_div_self u (2^8) 256
    norm_num at h ⊢
    omega
  rw [f1, f2, f3]
  have d1 := Nat.div_add_mod u (2^24)
  have d2 := Nat.div_add_mod (u % 2^24) (2^16)
  have d3 := Nat.div_add_mod (u % 2^16) (2^8)
  have m2 : u % 2^24 % 2^16 = u % 2^16 := Nat.mod_mod_of_dvd u (by norm_num)
  have m3 : u % 2^16 % 2^8 = u % 2^8 := Nat.mod_mod_of_dvd u (by norm_num)
  norm_num at d1 d2 d3 m2 m3 ⊢
  omega

theorem ipToInt_lt {a b c d : ℕ} (ha : a ≤ 255) (hb : b ≤ 255) (hc : c ≤ 255) (hd : d ≤ 255) :
    ipToInt [a, b, c, d] < 2^32 := by
  rw [ipToInt]
  simp only [Nat.shiftLeft_eq]
  norm_num
  omega

/-! ## The prefix-length search loop -/

theorem prefixLoop_spec (p t : ℕ) :
    prefixLoop p t ≤ p ∧
    (prefixLoop p t = 0 ∨ t ≤ 2^(32 - prefixLoop p t)) ∧
    (∀ q, prefixLoop p t < q → q ≤ p → 2^(32 - q) < t) := by
  induction p with
  | zero =>
    exact ⟨Nat.le_refl _, Or.inl rfl, fun q h1 h2 => absurd (Nat.lt_of_lt_of_le h1 h2) (by simp [prefixLoop])⟩
  | succ p ih =>
    by_cases h : 2^(32 - (p + 1)) ≥ t
    · simp only [prefixLoop, if_pos h]
      exact ⟨Nat.le_refl _, Or.inr h, fun q h1 h2 => by omega⟩
    · simp only [prefixLoop, if_neg h]
      obtain ⟨ih1, ih2, ih3⟩ := ih
      refine ⟨by omega, ih2, ?_⟩
      intro q h1 h2
      by_cases hq : q ≤ p
      · exact ih3 q h1 hq
      · have hq1 : q = p + 1 := by omega
        subst hq1
        omega

theorem getRequiredPrefixLength_le (h : ℕ) : getRequiredPrefixLength h ≤ 31 := by
  obtain ⟨h1, h2, _⟩ := prefixLoop_spec 32 (h + 2)
  rw [getRequiredPrefixLength]
  rcases h2 with h0 | hge
  · omega
  · by_contra hgt
    have h32 : prefixLoop 32 (h + 2) = 32 := by omega
    rw [h32] at hge
    norm_num at hge
    omega

/-! ## C4: minimality of the computed prefix length -/

/-- C4: for every host count `h` with `h + 2 ≤ 2^32`,
`getRequiredPrefixLength h` returns a prefix length `p` whose block size
`2^(32-p)` is at least `h + 2`, and when `p < 32` the next-smaller block
`2^(32-(p+1))` is too small — no smaller block would suffice. -/
theorem c4_required_prefix_minimal (h : ℕ) (hle : h + 2 ≤ 2^32) :
    h + 2 ≤ 2^(32 - getRequiredPrefixLength h) ∧
    (getRequiredPrefixLength h < 32 → 2^(32 - (getRequiredPrefixLength h + 1)) < h + 2) := by
  obtain ⟨h1, h2, h3⟩ := prefixLoop_spec 32 (h + 2)
  rw [getRequiredPrefixLength]
  constructor
  · rcases h2 with h0 | hge
    · rw [h0]
      simpa using hle
    · exact hge
  · intro hlt
    exact h3 _ (Nat.lt_succ_self _) (by omega)

/-- Witness for C4 at the host count 50 from the spec's worked example:
the returned prefix satisfies both the fit and the minimality bound. -/
theorem c4_witness :
    50 + 2 ≤ 2^(32 - getRequiredPrefixLength 50) ∧
    (getRequiredPrefixLength 50 < 32 → 2^(32 - (getRequiredPrefixLength 50 + 1)) < 50 + 2) :=
  c4_required_prefix_minimal 50 (by norm_num)

/-! ## C5: the h = 0 edge case -/

/-- C5 counterexample: for `h = 0` the source returns prefix length 31,
not the 30 the claim states (block size `2^(32-31) = 2 ≥ 0 + 2` already
fits, so the downward search stops at 31). -/
theorem c5_counterexample : getRequiredPrefixLength 0 ≠ 30 := by decide

/-- C5 (amended): for the host count `h = 0`, `getRequiredPrefixLength`
returns prefix length 31 (block size 2), the smallest block whose size
covers the `+2` reservation. -/
theorem c5_host_zero_gives_31 :
    getRequiredPrefixLength 0 = 31 ∧ 2^(32 - getRequiredPrefixLength 0) = 2 := by decide

/-! ## C6: the subnet mask -/

/-- C6: for every prefix length `p < 32` the computed mask has exactly
the top `p` bits of the 32-bit word set (bit `i` is set iff
`32 - p ≤ i < 32`), but at `p = 32` the JS reduction of the shift count
modulo 32 makes `~(0xffffffff >>> 32) >>> 0` evaluate to 0 — not the
all-ones mask the claim requires. -/
theorem c6_mask_top_bits_and_32_bug :
    (∀ p, p < 32 → ∀ i, (jsMask p).testBit i = decide (32 - p ≤ i ∧ i < 32)) ∧
    jsMask 32 = 0 ∧ jsMask 32 ≠ 2^32 - 1 := by
  refine ⟨?_, by decide, by decide⟩
  intro p hp i
  rw [jsMask_eq (by omega)]
  have hpow : (2:ℕ)^(32-p) * 2^p = 2^32 := by rw [← pow_add]; congr 1; omega
  have hk : (2:ℕ)^32 - 2^(32-p) = 2^(32-p) * (2^p - 1) := by
    rw [Nat.mul_sub, hpow, Nat.mul_one]
  rw [hk, Nat.testBit_mul_pow_two, Nat.testBit_two_pow_sub_one]
  by_cases h1 : 32 - p ≤ i
  · by_cases h2 : i < 32
    · have h3 : i - (32 - p) < p := by omega
      simp [h1, h2, h3]
    · have h3 : ¬(i - (32 - p) < p) := by omega
      simp [h1, h2, h3]
  · simp [h1]

/-- Witness for C6: the /24 mask has bit 8 set and bit 7 clear, and the
/32 mask degenerates to 0. -/
theorem c6_witness :
    (jsMask 24).testBit 8 = decide (32 - 24 ≤ 8 ∧ 8 < 32) ∧
    (jsMask 24).testBit 7 = decide (32 - 24 ≤ 7 ∧ 7 < 32) ∧
    jsMask 32 = 0 :=
  ⟨c6_mask_top_bits_and_32_bug.1 24 (by norm_num) 8,
   c6_mask_top_bits_and_32_bug.1 24 (by norm_num) 7,
   c6_mask_top_bits_and_32_bug.2.1⟩

/-! ## C9: no CapacityExceeded error exists -/

/-- C9 counterexample: for the host count `2^32` (so `h + 2 > 2^32`, the
case where the claim demands a `CapacityExceeded` error aborting the
whole allocation), `getRequiredPrefixLength` just returns prefix length
0 and the full allocation on a /0 base network even succeeds. -/
theorem c9_counterexample :
    getRequiredPrefixLength (2^32) = 0 ∧ (allocate [0,0,0,0] 0 [2^32]).isOk = true := by decide

/-- C9 (amended): the source has no per-requirement capacity error at
all — for every host count `h` with `h + 2 > 2^32` the downward search
runs out and `getRequiredPrefixLength` returns prefix length 0, whose
block does not reach `h + 2`; such a requirement is only ever rejected
by the aggregate `InsufficientAddressSpace` check. -/
theorem c9_oversized_host_count_gives_0 (h : ℕ) (hbig : 2^32 < h + 2) :
    getRequiredPrefixLength h = 0 ∧ 2^(32 - getRequiredPrefixLength h) < h + 2 := by
  obtain ⟨h1, h2, h3⟩ := prefixLoop_spec 32 (h + 2)
  rw [getRequiredPrefixLength]
  have h0 : prefixLoop 32 (h + 2) = 0 := by
    rcases h2 with h0 | hge
    · exact h0
    · exfalso
      have : (2:ℕ)^(32 - prefixLoop 32 (h+2)) ≤ 2^32 :=
        Nat.pow_le_pow_right (by norm_num) (by omega)
      omega
  rw [h0]
  norm_num
  omega

/-- Witness for C9 (amended) at the host count `2^32`. -/
theorem c9_witness :
    getRequiredPrefixLength (2^32) = 0 ∧ 2^(32 - getRequiredPrefixLength (2^32)) < 2^32 + 2 :=
  c9_oversized_host_count_gives_0 (2^32) (by norm_num)

/-! ## Packed values of the derived addresses -/

theorem jsNot32_lt (x : ℕ) : jsNot32 x < 2^32 := by
  rw [jsNot32]
  omega

theorem ipToInt_calculateNetworkAddress (ip : List ℕ) (p : ℕ) :
    ipToInt (calculateNetworkAddress ip p) = ipToInt ip &&& jsMask p := by
  rw [calculateNetworkAddress, ipToInt_intToIp,
      Nat.mod_eq_of_lt (lt_of_le_of_lt Nat.and_le_right (jsMask_lt p))]

theorem ipToInt_calculateBroadcastAddress_lt (ip : List ℕ) (p : ℕ) :
    ipToInt (calculateBroadcastAddress ip p) < 2^32 := by
  rw [calculateBroadcastAddress, ipToInt_intToIp]
  exact Nat.mod_lt _ (by norm_num)

theorem calculateNetworkAddress_idem (ip : List ℕ) (p : ℕ) :
    calculateNetworkAddress (calculateNetworkAddress ip p) p = calculateNetworkAddress ip p := by
  show intToIp (ipToInt (calculateNetworkAddress ip p) &&& jsMask p) = _
  rw [ipToInt_calculateNetworkAddress, Nat.and_assoc, Nat.and_self, calculateNetworkAddress]

theorem calculateBroadcastAddress_of_network {ip : List ℕ} (hip : ipToInt ip < 2^32)
    {p : ℕ} (hp : p ≤ 31) :
    calculateBroadcastAddress (calculateNetworkAddress ip p) p = calculateBroadcastAddress ip p := by
  show intToIp (ipToInt (calculateNetworkAddress ip p) ||| jsNot32 (jsMask p)) = _
  rw [calculateBroadcastAddress, ipToInt_calculateNetworkAddress, jsNot32_jsMask hp, jsMask_eq hp]
  congr 1
  rw [land_high_mask hip (32 - p) (by omega), lor_low_bits, lor_low_bits,
      Nat.mul_div_cancel_left _ (Nat.two_pow_pos (32 - p))]

/-! ## C7: the usable-range cases -/

/-- C7: the usable range of a subnet.  For `p < 31` the first usable
host is the network address plus one and the last is the broadcast
address minus one (as packed 32-bit values); for `p = 31` the range is
the network and broadcast addresses themselves; for `p = 32` both
endpoints are absent. -/
theorem c7_usable_range_cases (ip : List ℕ) (p : ℕ) :
    (p < 31 → ∃ f l, usableRange ip p = (some f, some l) ∧
      ipToInt f = ipToInt (calculateNetworkAddress ip p) + 1 ∧
      ipToInt l = ipToInt (calculateBroadcastAddress ip p) - 1) ∧
    (p = 31 → usableRange ip p =
      (some (calculateNetworkAddress ip p), some (calculateBroadcastAddress ip p))) ∧
    (p = 32 → usableRange ip p = (none, none)) := by
  refine ⟨?_, ?_, ?_⟩
  · intro hp
    have hge : ¬ p ≥ 31 := by omega
    rw [usableRange]
    simp only [hge, if_false]
    refine ⟨_, _, rfl, ?_, ?_⟩
    · rw [ipToInt_intToIp]
      apply Nat.mod_eq_of_lt
      rw [ipToInt_calculateNetworkAddress]
      have h1 : ipToInt ip &&& jsMask p ≤ jsMask p := Nat.and_le_right
      have h2 : jsMask p = 2^32 - 2^(32 - p) := jsMask_eq (by omega)
      have h3 : (2:ℕ)^2 ≤ 2^(32 - p) := Nat.pow_le_pow_right (by norm_num) (by omega)
      norm_num at h3
      omega
    · rw [ipToInt_intToIp]
      apply Nat.mod_eq_of_lt
      have h1 := ipToInt_calculateBroadcastAddress_lt ip p
      omega
  · intro hp
    subst hp
    rw [usableRange]
    norm_num
  · intro hp
    subst hp
    rw [usableRange]
    norm_num

/-- Witness for C7, one instance per case: a /30 block on `10.0.0.0`, a
/31 block, and a /32 block. -/
theorem c7_witness :
    (∃ f l, usableRange [10,0,0,0] 30 = (some f, some l) ∧
      ipToInt f = ipToInt (calculateNetworkAddress [10,0,0,0] 30) + 1 ∧
      ipToInt l = ipToInt (calculateBroadcastAddress [10,0,0,0] 30) - 1) ∧
    usableRange [10,0,0,1] 31 =
      (some (calculateNetworkAddress [10,0,0,1] 31), some (calculateBroadcastAddress [10,0,0,1] 31)) ∧
    usableRange [1,2,3,4] 32 = (none, none) :=
  ⟨(c7_usable_range_cases [10,0,0,0] 30).1 (by norm_num),
   (c7_usable_range_cases [10,0,0,1] 31).2.1 rfl,
   (c7_usable_range_cases [1,2,3,4] 32).2.2 rfl⟩

/-! ## C10: the usable range only depends on the aligned block -/

/-- C10: `usableRange` re-derives the network and broadcast addresses by
masking its input, so its result is unchanged when the input address is
replaced by its own network address — it depends only on the aligned
block containing the address, even when the address is not the network
address of its prefix. -/
theorem c10_usable_range_of_network (a b c d p : ℕ)
    (ha : a ≤ 255) (hb : b ≤ 255) (hc : c ≤ 255) (hd : d ≤ 255) (hp : p ≤ 32) :
    usableRange [a,b,c,d] p = usableRange (calculateNetworkAddress [a,b,c,d] p) p := by
  have hip : ipToInt [a,b,c,d] < 2^32 := ipToInt_lt ha hb hc hd
  by_cases h31 : p ≥ 31
  · by_cases h31e : p = 31
    · subst h31e
      rw [usableRange, usableRange]
      norm_num
      rw [calculateNetworkAddress_idem, calculateBroadcastAddress_of_network hip (by norm_num)]
      exact ⟨rfl, rfl⟩
    · rw [usableRange, usableRange]
      simp [h31, h31e]
  · rw [usableRange, usableRange]
    simp only [h31, if_false]
    rw [calculateNetworkAddress_idem, calculateBroadcastAddress_of_network hip (by omega)]

/-- Witness for C10 at the unaligned address `192.168.1.77/26`. -/
theorem c10_witness :
    usableRange [192,168,1,77] 26 = usableRange (calculateNetworkAddress [192,168,1,77] 26) 26 :=
  c10_usable_range_of_network 192 168 1 77 26 (by norm_num) (by norm_num) (by norm_num)
    (by norm_num) (by norm_num)

/-! ## The stable descending sort -/

theorem insertBySize_perm (s : Subnet) (l : List Subnet) :
    List.Perm (insertBySize s l) (s :: l) := by
  induction l with
  | nil => exact List.Perm.refl _
  | cons t ts ih =>
    rw [insertBySize]
    by_cases h : s.subnetSize ≤ t.subnetSize
    · rw [if_pos h]
      exact (ih.cons t).trans (List.Perm.swap s t ts)
    · rw [if_neg h]

theorem sortFold_perm (l : List Subnet) :
    ∀ acc, List.Perm (l.foldl (fun a s => insertBySize s a) acc) (acc ++ l) := by
  induction l with
  | nil => intro acc; simp
  | cons s ts ih =>
    intro acc
    rw [List.foldl_cons]
    exact ((ih _).trans (((insertBySize_perm s acc).append_right ts).trans
      List.perm_middle.symm))

theorem sortBySizeDesc_perm (l : List Subnet) : List.Perm (sortBySizeDesc l) l := by
  have h := sortFold_perm l []
  simpa [sortBySizeDesc] using h

theorem insertBySize_sorted (s : Subnet) (l : List Subnet)
    (h : l.Pairwise (fun a b => b.subnetSize ≤ a.subnetSize)) :
    (insertBySize s l).Pairwise (fun a b => b.subnetSize ≤ a.subnetSize) := by
  induction l with
  | nil => simp [insertBySize]
  | cons t ts ih =>
    rw [List.pairwise_cons] at h
    obtain ⟨h1, h2⟩ := h
    rw [insertBySize]
    by_cases hc : s.subnetSize ≤ t.subnetSize
    · rw [if_pos hc]
      refine List.Pairwise.cons ?_ (ih h2)
      intro b hb
      rcases List.mem_cons.mp ((insertBySize_perm s ts).mem_iff.mp hb) with hb' | hb'
      · rw [hb']
        exact hc
      · exact h1 b hb'
    · rw [if_neg hc]
      refine List.Pairwise.cons ?_ (List.Pairwise.cons h1 h2)
      intro b hb
      rcases List.mem_cons.mp hb with hb' | hb'
      · rw [hb']
        omega
      · have := h1 b hb'
        omega

theorem sortFold_sorted (l : List Subnet) :
    ∀ acc, acc.Pairwise (fun a b => b.subnetSize ≤ a.subnetSize) →
      (l.foldl (fun a s => insertBySize s a) acc).Pairwise
        (fun a b => b.subnetSize ≤ a.subnetSize) := by
  induction l with
  | nil => intro acc hacc; simpa using hacc
  | cons s ts ih =>
    intro acc hacc
    rw [List.foldl_cons]
    exact ih _ (insertBySize_sorted s acc hacc)

theorem sortBySizeDesc_sorted (l : List Subnet) :
    (sortBySizeDesc l).Pairwise (fun a b => b.subnetSize ≤ a.subnetSize) :=
  sortFold_sorted l [] (List.Pairwise.nil)

theorem mem_sorted_mkSubnet {hosts : List ℕ} {s : Subnet}
    (hs : s ∈ sortBySizeDesc (hosts.map mkSubnet)) :
    s.prefixLength ≤ 31 ∧ s.subnetSize = 2^(32 - s.prefixLength) := by
  have hmem : s ∈ hosts.map mkSubnet := (sortBySizeDesc_perm _).mem_iff.mp hs
  obtain ⟨h, _, rfl⟩ := List.mem_map.mp hmem
  exact ⟨getRequiredPrefixLength_le h, rfl⟩

/-! ## Shape of the emitted detail list -/

theorem allocGo_length (subs : List Subnet) :
    ∀ c i, (allocGo c i subs).length = subs.length := by
  induction subs with
  | nil => intro c i; rfl
  | cons s rest ih =>
    intro c i
    rw [allocGo]
    simp [ih]

theorem allocGo_map_hosts (subs : List Subnet) :
    ∀ c i, (allocGo c i subs).map SubnetDetail.hosts = subs.map Subnet.hosts := by
  induction subs with
  | nil => intro c i; rfl
  | cons s rest ih =>
    intro c i
    rw [allocGo]
    simp [ih]

theorem allocGo_map_prefixLength (subs : List Subnet) :
    ∀ c i, (allocGo c i subs).map SubnetDetail.prefixLength = subs.map Subnet.prefixLength := by
  induction subs with
  | nil => intro c i; rfl
  | cons s rest ih =>
    intro c i
    rw [allocGo]
    simp [ih]

theorem allocGo_map_idx (subs : List Subnet) :
    ∀ c i, (allocGo c i subs).map SubnetDetail.idx = List.range' (i + 1) subs.length := by
  induction subs with
  | nil => intro c i; rfl
  | cons s rest ih =>
    intro c i
    rw [allocGo, List.length_cons, List.range'_succ]
    simp [ih]

theorem mem_allocGo {e : SubnetDetail} (subs : List Subnet) :
    ∀ c i, e ∈ allocGo c i subs →
      ∃ off s, s ∈ subs ∧ off + s.subnetSize ≤ (subs.map Subnet.subnetSize).sum ∧
        e.network = intToIp (c + off) ∧ e.prefixLength = s.prefixLength ∧
        e.broadcast = calculateBroadcastAddress (intToIp (c + off)) s.prefixLength := by
  induction subs with
  | nil => intro c i h; simp [allocGo] at h
  | cons s0 rest ih =>
    intro c i h
    rw [allocGo] at h
    rcases List.mem_cons.mp h with he | he
    · subst he
      exact ⟨0, s0, List.mem_cons_self s0 rest, by simp, by simp, rfl, by simp⟩
    · obtain ⟨off, s, hs, hsum, hnet, hpl, hbc⟩ := ih (c + s0.subnetSize) (i + 1) he
      refine ⟨s0.subnetSize + off, s, List.mem_cons_of_mem s0 hs, ?_, ?_, hpl, ?_⟩
      · simp only [List.map_cons, List.sum_cons]
        omega
      · rw [← Nat.add_assoc]
        exact hnet
      · rw [← Nat.add_assoc]
        exact hbc

/-! ## Non-overlap of allocated blocks -/

theorem blocks_disjoint (c off k1 k2 x : ℕ)
    (hoff : 2^k1 ≤ off) (hsum : off + 2^k2 ≤ 2^32) :
    ¬((c % 2^32 ≤ x ∧ x ≤ (c % 2^32) ||| (2^k1 - 1)) ∧
      ((c + off) % 2^32 ≤ x ∧ x ≤ ((c + off) % 2^32) ||| (2^k2 - 1))) := by
  have b1 := lor_low_bits (c % 2^32) k1
  have b2 := lor_low_bits ((c + off) % 2^32) k2
  have d1 : 2^k1 * (c % 2^32 / 2^k1) ≤ c % 2^32 := by
    rw [Nat.mul_comm]
    exact Nat.div_mul_le_self _ _
  have d2 : 2^k2 * ((c + off) % 2^32 / 2^k2) ≤ (c + off) % 2^32 := by
    rw [Nat.mul_comm]
    exact Nat.div_mul_le_self _ _
  have e1 : (c % 2^32) ||| (2^k1 - 1) ≤ c % 2^32 + (2^k1 - 1) := by omega
  have e2 : ((c + off) % 2^32) ||| (2^k2 - 1) ≤ (c + off) % 2^32 + (2^k2 - 1) := by omega
  have hp1 : (1:ℕ) ≤ 2^k1 := Nat.one_le_two_pow
  have hp2 : (1:ℕ) ≤ 2^k2 := Nat.one_le_two_pow
  intro h
  obtain ⟨⟨hx1, hx2⟩, hx3, hx4⟩ := h
  omega

theorem allocGo_pairwise (subs : List Subnet)
    (hps : ∀ s ∈ subs, s.prefixLength ≤ 31 ∧ s.subnetSize = 2^(32 - s.prefixLength))
    (hsum : (subs.map Subnet.subnetSize).sum ≤ 2^32) :
    ∀ c i, (allocGo c i subs).Pairwise (fun d e => ∀ x, ¬(inRange d x ∧ inRange e x)) := by
  induction subs with
  | nil => intro c i; simp [allocGo]
  | cons s0 rest ih =>
    intro c i
    obtain ⟨hp0, hsz0⟩ := hps s0 (List.mem_cons_self s0 rest)
    have hsumrest : ((rest.map Subnet.subnetSize).sum) ≤ 2^32 := by
      simp only [List.map_cons, List.sum_cons] at hsum
      omega
    rw [allocGo]
    refine List.Pairwise.cons ?_
      (ih (fun s hs => hps s (List.mem_cons_of_mem s0 hs)) hsumrest (c + s0.subnetSize) (i + 1))
    intro e he x hx
    obtain ⟨off, s, hs, hoffsum, hnet, hpl, hbc⟩ := mem_allocGo rest (c + s0.subnetSize) (i + 1) he
    obtain ⟨hpe, hsze⟩ := hps s (List.mem_cons_of_mem s0 hs)
    obtain ⟨⟨ha1, ha2⟩, hb1, hb2⟩ := hx
    simp only [hnet, hbc] at hb1 hb2
    simp only [inRange] at ha1 ha2 hb1 hb2
    rw [ipToInt_intToIp] at ha1 hb1
    have hbc0 : ipToInt (calculateBroadcastAddress (intToIp c) s0.prefixLength) =
        (c % 2^32) ||| (2^(32 - s0.prefixLength) - 1) := by
      rw [calculateBroadcastAddress, ipToInt_intToIp, ipToInt_intToIp, jsNot32_jsMask hp0]
      apply Nat.mod_eq_of_lt
      apply Nat.or_lt_two_pow (Nat.mod_lt _ (by norm_num))
      have : (2:ℕ)^(32 - s0.prefixLength) ≤ 2^32 := Nat.pow_le_pow_right (by norm_num) (by omega)
      omega
    have hbce : ipToInt (calculateBroadcastAddress (intToIp (c + s0.subnetSize + off)) s.prefixLength) =
        ((c + (s0.subnetSize + off)) % 2^32) ||| (2^(32 - s.prefixLength) - 1) := by
      rw [calculateBroadcastAddress, ipToInt_intToIp, ipToInt_intToIp, jsNot32_jsMask hpe,
        ← Nat.add_assoc]
      apply Nat.mod_eq_of_lt
      apply Nat.or_lt_two_pow (Nat.mod_lt _ (by norm_num))
      have : (2:ℕ)^(32 - s.prefixLength) ≤ 2^32 := Nat.pow_le_pow_right (by norm_num) (by omega)
      omega
    rw [hbc0] at ha2
    rw [hbce] at hb2
    have hsum0 : (((s0 :: rest).map Subnet.subnetSize).sum) =
        s0.subnetSize + (rest.map Subnet.subnetSize).sum := by
      simp
    refine blocks_disjoint c (s0.subnetSize + off)
      (32 - s0.prefixLength) (32 - s.prefixLength) x ?_ ?_
      ⟨⟨ha1, ha2⟩, ?_, hb2⟩
    · omega
    · rw [← hsze]
      omega
    · rw [← Nat.add_assoc]
      exact hb1

/-! ## Splitting the allocator on its capacity guard -/

theorem allocate_eq_ite (ip : List ℕ) (prefixLength : ℕ) (hosts : List ℕ) :
    allocate ip prefixLength hosts =
      if ((sortBySizeDesc (hosts.map mkSubnet)).map Subnet.subnetSize).sum > 2^(32 - prefixLength)
      then .error .insufficientAddressSpace
      else .ok (allocGo (ipToInt ip) 0 (sortBySizeDesc (hosts.map mkSubnet))) := rfl

theorem allocate_spec (ip : List ℕ) (prefixLength : ℕ) (hosts : List ℕ) :
    (allocate ip prefixLength hosts = .error .insufficientAddressSpace ↔
      2^(32 - prefixLength) <
        ((sortBySizeDesc (hosts.map mkSubnet)).map Subnet.subnetSize).sum) ∧
    (∀ l, allocate ip prefixLength hosts = .ok l →
      l = allocGo (ipToInt ip) 0 (sortBySizeDesc (hosts.map mkSubnet))) := by
  rw [allocate_eq_ite]
  by_cases hg : ((sortBySizeDesc (hosts.map mkSubnet)).map Subnet.subnetSize).sum >
      2^(32 - prefixLength)
  · rw [if_pos hg]
    refine ⟨⟨fun _ => hg, fun _ => rfl⟩, fun l hl => ?_⟩
    simp at hl
  · rw [if_neg hg]
    refine ⟨⟨fun h => ?_, fun h => absurd h (by omega)⟩, fun l hl => ?_⟩
    · simp at h
    · injection hl with h
      exact h.symm

/-! ## C2: the capacity check -/

/-- C2: the allocator fails, and fails with `InsufficientAddressSpace`,
exactly when the sum of the per-requirement block sizes
`2^(32 - getRequiredPrefixLength h)` exceeds the `2^(32 - P)` addresses
of the base network; and an `ok` result is always a full plan with one
subnet per requirement (a thrown error produces no partial list). -/
theorem c2_capacity_check (ip : List ℕ) (prefixLength : ℕ) (hosts : List ℕ) :
    (allocate ip prefixLength hosts = .error .insufficientAddressSpace ↔
      2^(32 - prefixLength) < (hosts.map fun h => 2^(32 - getRequiredPrefixLength h)).sum) ∧
    (∀ l, allocate ip prefixLength hosts = .ok l → l.length = hosts.length) := by
  obtain ⟨hiff, hok⟩ := allocate_spec ip prefixLength hosts
  have hsum : ((sortBySizeDesc (hosts.map mkSubnet)).map Subnet.subnetSize).sum =
      (hosts.map fun h => 2^(32 - getRequiredPrefixLength h)).sum := by
    have hperm := (sortBySizeDesc_perm (hosts.map mkSubnet)).map Subnet.subnetSize
    rw [hperm.sum_eq, List.map_map]
    rfl
  constructor
  · rw [hiff, hsum]
  · intro l hl
    rw [hok l hl, allocGo_length,
      (sortBySizeDesc_perm (hosts.map mkSubnet)).length_eq, List.length_map]

/-- Witness for C2: the spec's own failing example `10.0.0.0/30` with
requirement `[10]` (block 16 > available 4) fails with
`InsufficientAddressSpace`, and the three-requirement success example
returns a full three-subnet plan. -/
theorem c2_witness :
    allocate [10,0,0,0] 30 [10] = .error .insufficientAddressSpace ∧
    ([detail50, detail20, detail10third] : List SubnetDetail).length = [50,20,10].length :=
  ⟨(c2_capacity_check [10,0,0,0] 30 [10]).1.mpr (by decide),
   (c2_capacity_check [192,168,1,0] 24 [50,20,10]).2 [detail50, detail20, detail10third]
     (by decide)⟩

/-! ## C3: allocated ranges never overlap -/

/-- C3: in every successful allocation — including from a base address
that is not aligned to its own prefix, which is never normalized — the
address ranges from network to broadcast address of two distinct
returned subnets are disjoint: no 32-bit value lies in both. -/
theorem c3_ranges_disjoint (ip : List ℕ) (prefixLength : ℕ) (hosts : List ℕ)
    (l : List SubnetDetail) (h : allocate ip prefixLength hosts = .ok l) :
    ∀ d ∈ l, ∀ e ∈ l, d ≠ e → ∀ x, ¬(inRange d x ∧ inRange e x) := by
  have hl := (allocate_spec ip prefixLength hosts).2 l h
  have hguard : ¬(((sortBySizeDesc (hosts.map mkSubnet)).map Subnet.subnetSize).sum >
      2^(32 - prefixLength)) := by
    intro hg
    rw [(allocate_spec ip prefixLength hosts).1.mpr hg] at h
    cases h
  have hsum : ((sortBySizeDesc (hosts.map mkSubnet)).map Subnet.subnetSize).sum ≤ 2^32 := by
    have h2 : (2:ℕ)^(32 - prefixLength) ≤ 2^32 := Nat.pow_le_pow_right (by norm_num) (by omega)
    omega
  have hpw := allocGo_pairwise (sortBySizeDesc (hosts.map mkSubnet))
    (fun s hs => mem_sorted_mkSubnet hs) hsum (ipToInt ip) 0
  rw [← hl] at hpw
  have hsymm : Symmetric (fun d e : SubnetDetail => ∀ x, ¬(inRange d x ∧ inRange e x)) := by
    intro d e hde x hx
    exact hde x ⟨hx.2, hx.1⟩
  intro d hd e he hne
  exact List.Pairwise.forall hsymm hpw hd he hne

/-- Witness for C3 on the two-requirement example: the address
`192.168.1.64` (the second subnet's network address) does not lie in
both subnets' ranges. -/
theorem c3_witness :
    ¬(inRange detail50 3232235840 ∧ inRange detail20 3232235840) :=
  c3_ranges_disjoint [192,168,1,0] 24 [50,20] [detail50, detail20] (by decide)
    detail50 (List.mem_cons_self _ _)
    detail20 (List.mem_cons_of_mem _ (List.mem_cons_self _ _))
    (by decide) 3232235840

/-! ## C1: emission order of the results -/

/-- C1 counterexample: for base `192.168.1.0/24` and requirements
`[10, 50]` the allocator emits the 50-host subnet first — the results
come out in allocation (descending-size) order, not in the original
input order the claim states. -/
theorem c1_counterexample :
    (allocate [192,168,1,0] 24 [10,50]).map (List.map SubnetDetail.hosts) = .ok [50,10] ∧
    [50,10] ≠ ([10,50] : List ℕ) := by
  constructor
  · decide
  · decide

/-- C1 (amended): every successful allocation emits its results in
allocation order — the stable descending-block-size order — not input
order: the emitted host annotations are a permutation of the input
requirements, block sizes never increase along the emitted list, and
each result is labelled with its 1-based position in that emitted
order. -/
theorem c1_emitted_in_allocation_order (ip : List ℕ) (prefixLength : ℕ) (hosts : List ℕ)
    (l : List SubnetDetail) (h : allocate ip prefixLength hosts = .ok l) :
    List.Perm (l.map SubnetDetail.hosts) hosts ∧
    l.Pairwise (fun d e => 2^(32 - e.prefixLength) ≤ 2^(32 - d.prefixLength)) ∧
    l.map SubnetDetail.idx = List.range' 1 l.length := by
  have hl := (allocate_spec ip prefixLength hosts).2 l h
  subst hl
  refine ⟨?_, ?_, ?_⟩
  · rw [allocGo_map_hosts]
    have p2 := (sortBySizeDesc_perm (hosts.map mkSubnet)).map Subnet.hosts
    rw [List.map_map] at p2
    have hid : hosts.map (Subnet.hosts ∘ mkSubnet) = hosts := by
      rw [show Subnet.hosts ∘ mkSubnet = id from rfl, List.map_id]
    rwa [hid] at p2
  · have hs := sortBySizeDesc_sorted (hosts.map mkSubnet)
    have hs' : (sortBySizeDesc (hosts.map mkSubnet)).Pairwise
        (fun a b => 2^(32 - b.prefixLength) ≤ 2^(32 - a.prefixLength)) := by
      refine List.Pairwise.imp_of_mem ?_ hs
      intro a b ha hb hab
      rw [← (mem_sorted_mkSubnet ha).2, ← (mem_sorted_mkSubnet hb).2]
      exact hab
    have hm := allocGo_map_prefixLength (sortBySizeDesc (hosts.map mkSubnet)) (ipToInt ip) 0
    have hp2 : ((sortBySizeDesc (hosts.map mkSubnet)).map Subnet.prefixLength).Pairwise
        (fun a b => (2:ℕ)^(32 - b) ≤ 2^(32 - a)) := List.pairwise_map.mpr hs'
    rw [← hm] at hp2
    exact List.pairwise_map.mp hp2
  · rw [allocGo_map_idx, allocGo_length]

/-- Witness for C1 (amended) on the `[10, 50]` example: the emitted list
is the 50-host subnet then the 10-host subnet, sizes descending, labels
1 and 2. -/
theorem c1_witness :
    List.Perm ([detail50, detail10].map SubnetDetail.hosts) [10,50] ∧
    ([detail50, detail10] : List SubnetDetail).Pairwise
      (fun d e => 2^(32 - e.prefixLength) ≤ 2^(32 - d.prefixLength)) ∧
    ([detail50, detail10] : List SubnetDetail).map SubnetDetail.idx =
      List.range' 1 ([detail50, detail10] : List SubnetDetail).length :=
  c1_emitted_in_allocation_order [192,168,1,0] 24 [10,50] [detail50, detail10] (by decide)

/-! ## C8: the validation stages of the CIDR parser -/

/-- C8 counterexample: for the input `1.2.3.4/24x` both split parts are
present, and the prefix part `24x` does not parse as an integer (in the
plain full-string sense the claim uses), so the claim demands an
`InvalidPrefixLength` failure — but the source's `parseInt` reads the
leading `24` and ignores the rest, and `parseCIDR` succeeds. -/
theorem c8_counterexample :
    bothPartsPresent "1.2.3.4/24x" = true ∧
    strictInt (prefixPartOf "1.2.3.4/24x") = none ∧
    parseCIDR "1.2.3.4/24x" ≠ .error .invalidPrefixLength ∧
    (parseCIDR "1.2.3.4/24x").isOk = true :=
  ⟨by decide, by decide, by decide, by decide⟩

/-- C8 (amended): `parseCIDR` validates in order with distinct failure
modes, but with the source's conversions rather than plain integer
parsing: it fails with `MalformedInput` iff one of the first two
components of the split on `/` is missing or empty; otherwise it fails
with `InvalidPrefixLength` iff `parseInt` (longest leading digit run,
`0x` hex allowed, trailing junk ignored) yields NaN or a value outside
`[0,32]`; otherwise it fails with `InvalidAddress` iff the address part
does not split on `.` into exactly four components whose `Number` values
— the binary64-rounded doubles, with the empty component counting as 0
— lie in `[0,255]`; otherwise it returns the `Number` values of the
four components and the `parseInt` value of the prefix part. -/
theorem c8_parse_stages (s : String) :
    (parseCIDR s = .error .malformedInput ↔ bothPartsPresent s = false) ∧
    (bothPartsPresent s = true →
      (parseCIDR s = .error .invalidPrefixLength ↔ jsPrefixOk s = false)) ∧
    (bothPartsPresent s = true → jsPrefixOk s = true →
      (parseCIDR s = .error .invalidAddress ↔ jsAddressOk s = false)) ∧
    (bothPartsPresent s = true → jsPrefixOk s = true → jsAddressOk s = true →
      ∃ octets n, parseCIDR s = .ok (octets, n) ∧
        jsParseInt (prefixPartOf s) = some n ∧
        octets = (splitOnChar '.' (ipPartOf s)).map jsNumber) := by
  rcases hsplit : splitOnChar '/' s.data with _ | ⟨ipPart, restParts⟩
  · refine ⟨?_, ?_, ?_, ?_⟩ <;>
      simp [parseCIDR, bothPartsPresent, hsplit]
  · rcases restParts with _ | ⟨prefixPart, rest2⟩
    · refine ⟨?_, ?_, ?_, ?_⟩ <;>
        simp [parseCIDR, bothPartsPresent, hsplit]
    · by_cases hie : ipPart.isEmpty
      · refine ⟨?_, ?_, ?_, ?_⟩ <;>
          simp [parseCIDR, bothPartsPresent, hsplit, hie]
      · by_cases hpe : prefixPart.isEmpty
        · refine ⟨?_, ?_, ?_, ?_⟩ <;>
            simp [parseCIDR, bothPartsPresent, hsplit, hie, hpe]
        · rcases hpi : jsParseInt prefixPart with _ | n
          · refine ⟨?_, ?_, ?_, ?_⟩ <;>
              simp [parseCIDR, bothPartsPresent, jsPrefixOk, prefixPartOf, hsplit, hie, hpe, hpi]
          · by_cases hrange : n < 0 ∨ 32 < n
            · refine ⟨?_, ?_, ?_, ?_⟩ <;>
                simp [parseCIDR, bothPartsPresent, jsPrefixOk, prefixPartOf, hsplit, hie, hpe,
                  hpi, hrange] <;>
                intros <;> omega
            · have hn1 : ¬ n < 0 := by omega
              have hn2 : ¬ 32 < n := by omega
              have hbp : bothPartsPresent s = true := by
                simp [bothPartsPresent, hsplit, hie, hpe]
              have hpok : jsPrefixOk s = true := by
                simp [jsPrefixOk, prefixPartOf, hsplit, hpi, hn1, hn2]
              have hpc : parseCIDR s =
                  if ((splitOnChar '.' ipPart).map jsNumber).length ≠ 4 ∨
                      ((splitOnChar '.' ipPart).map jsNumber).any
                        (fun o => o.isNaN || o.lt0 || o.gt255) = true
                  then .error .invalidAddress
                  else .ok ((splitOnChar '.' ipPart).map jsNumber, n) := by
                simp [parseCIDR, hsplit, hie, hpe, hpi, hn1, hn2]
              by_cases haddr : ((splitOnChar '.' ipPart).map jsNumber).length ≠ 4 ∨
                  ((splitOnChar '.' ipPart).map jsNumber).any
                    (fun o => o.isNaN || o.lt0 || o.gt255) = true
              · rw [if_pos haddr] at hpc
                have haok : jsAddressOk s = false := by
                  simp only [jsAddressOk]
                  rw [show ipPartOf s = ipPart from by simp [ipPartOf, hsplit]]
                  rcases haddr with h4 | hany
                  · rw [List.length_map] at h4
                    simp [h4]
                  · simp [hany]
                refine ⟨?_, ?_, ?_, ?_⟩
                · rw [hpc, hbp]
                  simp
                · intro _
                  rw [hpc, hpok]
                  simp
                · intro _ _
                  rw [hpc, haok]
                  simp
                · intro _ _ hcontra
                  rw [haok] at hcontra
                  cases hcontra
              · rw [if_neg haddr] at hpc
                have haok : jsAddressOk s = true := by
                  push_neg at haddr
                  have hany := Bool.eq_false_iff.mpr haddr.2
                  simp only [jsAddressOk]
                  rw [show ipPartOf s = ipPart from by simp [ipPartOf, hsplit]]
                  simp [haddr.1, hany]
                refine ⟨?_, ?_, ?_, ?_⟩
                · rw [hpc, hbp]
                  simp
                · intro _
                  rw [hpc, hpok]
                  simp
                · intro _ _
                  rw [hpc, haok]
                  simp
                · intro _ _ _
                  refine ⟨(splitOnChar '.' ipPart).map jsNumber, n, hpc, ?_, ?_⟩
                  · rw [show prefixPartOf s = prefixPart from by simp [prefixPartOf, hsplit]]
                    exact hpi
                  · rw [show ipPartOf s = ipPart from by simp [ipPartOf, hsplit]]

/-- Witness for C8 (amended): the spec's own example `10.0.0/24` (three
octets) passes the first two stages and fails with `InvalidAddress`, and
an input with no `/` fails with `MalformedInput`. -/
theorem c8_witness :
    parseCIDR "10.0.0/24" = .error .invalidAddress ∧
    parseCIDR "10.0.0.0" = .error .malformedInput :=
  ⟨((c8_parse_stages "10.0.0/24").2.2.1 (by decide) (by decide)).mpr (by decide),
   (c8_parse_stages "10.0.0.0").1.mpr (by decide)⟩

end VLSM
